import Mathlib

/-!
Shallow embedding of the MRF (Meta Raster Format) storage core from
`src/gdal_mrf/frmts/mrf/marfa_dataset.cpp`, and theorems settling the
frozen claims about it.

The embedding models the two files of an MRF dataset:
  - the index file, a map from byte offsets to 16-byte records
    `{offset : uint64, size : uint64}` stored in network byte order
    (sparse regions read as all-zero), and
  - the data file, an append-only list of bytes.

I/O failures are injected through explicit oracle parameters: a write
oracle says how many bytes a `VSIFWriteL` call actually accepts.
Machine integers are modelled as `Nat`; the 64-bit byte swap `net64`
is defined explicitly on 8-byte strings.
-/

namespace MRF

/-- Result codes, mirroring `CPLErr` as used by the source
(`CE_None` for success, `CE_Failure` for failure). -/
inductive CPLErr where
  | none : CPLErr
  | failure : CPLErr
deriving DecidableEq, Repr

/-- A 16-byte index record `ILIdx {GIntBig offset; GIntBig size;}`.
Field values are whatever 64-bit quantity is stored there: on disk the
fields hold network-byte-order values. -/
structure ILIdx where
  offset : Nat
  size : Nat
deriving DecidableEq, Repr

/-- The little-endian byte string of length `n` of a natural number. -/
def toBytesLE : Nat → Nat → List Nat
  | 0, _ => []
  | n + 1, x => x % 256 :: toBytesLE n (x / 256)

/-- Read back a little-endian byte string as a natural number. -/
def fromBytesLE : List Nat → Nat
  | [] => 0
  | b :: bs => b + 256 * fromBytesLE bs

/-- Modelled from the spec: `net64` (defined in the repository outside
`src/`) converts a 64-bit value between host order and the fixed
network byte order; modelled as the 64-bit byte swap. -/
def net64 (x : Nat) : Nat := fromBytesLE ((toBytesLE 8 x).reverse)

theorem fromBytesLE_eq_zero (l : List Nat) :
    fromBytesLE l = 0 ↔ ∀ b ∈ l, b = 0 := by
  induction l with
  | nil => simp [fromBytesLE]
  | cons b bs ih =>
    simp [fromBytesLE, Nat.add_eq_zero, Nat.mul_eq_zero, ih]

theorem fromBytesLE_toBytesLE (n x : Nat) :
    fromBytesLE (toBytesLE n x) = x % 256 ^ n := by
  induction n generalizing x with
  | zero => simp [toBytesLE, fromBytesLE, Nat.mod_one]
  | succ n ih =>
    simp only [toBytesLE, fromBytesLE, ih]
    rw [pow_succ', Nat.mod_mul]

theorem toBytesLE_eq_zero (n x : Nat) :
    (∀ b ∈ toBytesLE n x, b = 0) ↔ x % 256 ^ n = 0 := by
  rw [← fromBytesLE_eq_zero, fromBytesLE_toBytesLE]

/-- Conversion of zero: `net64` maps zero to zero. -/
theorem net64_zero : net64 0 = 0 := by decide

/-- On 64-bit values, `net64` vanishes only at zero. -/
theorem net64_eq_zero {x : Nat} (hx : x < 2 ^ 64) : net64 x = 0 ↔ x = 0 := by
  constructor
  · intro h
    unfold net64 at h
    rw [fromBytesLE_eq_zero] at h
    have h0 : ∀ b ∈ toBytesLE 8 x, b = 0 := by
      intro b hb
      exact h b (List.mem_reverse.mpr hb)
    rw [toBytesLE_eq_zero] at h0
    have : (256 : Nat) ^ 8 = 2 ^ 64 := by norm_num
    rw [this] at h0
    omega
  · intro h; subst h; exact net64_zero

/-- State of one MRF dataset for the write path: the index file as a map
from byte offset to the 16-byte record stored there (sparse regions read
as the all-zero record), the append-only data file as its byte list, and
the version counter `verCount`. -/
structure MRFState where
  idx : Nat → ILIdx
  data : List Nat
  verCount : Nat

/-- Bytes of the data file from offset `off`, length `n`; bytes beyond
EOF read as zero (the file is sparse / zero-grown). -/
def readData (data : List Nat) (off n : Nat) : List Nat :=
  (List.range n).map fun i => data.getD (off + i) 0

/-- First `n` bytes of the memory a tile buffer points to. -/
def bufBytes (buffMem : List Nat) (n : Nat) : List Nat :=
  (List.range n).map fun i => buffMem.getD i 0

/-- Embedding of `GDALMRFDataset::AddVersion` (marfa_dataset.cpp lines
1600-1613):
read `idxSize` bytes of the current generation from offset 0, increment
`verCount`, write the copy at offset `idxSize * verCount`.  The source
ignores the return values of both `VSIFReadL` and `VSIFWriteL` and
always returns `CE_None`; the oracle `writeOk` injects a failed write
(modelled at record granularity as writing nothing). -/
def addVersion (idxSize : Nat) (writeOk : Bool) (s : MRFState) :
    MRFState × CPLErr :=
  let vc := s.verCount + 1
  let idx1 : Nat → ILIdx := fun o =>
    if idxSize * vc ≤ o ∧ o < idxSize * vc + idxSize then
      s.idx (o - idxSize * vc)
    else s.idx o
  ({ s with verCount := vc, idx := if writeOk then idx1 else s.idx },
   CPLErr.none)

/-- Write oracle for `writeTile`: `appendBytes i` is the number of bytes
the `i`-th data-file append attempt actually accepts (capped at the
requested size; fewer means a failed `VSIFWriteL`); `addVerOk` feeds
`addVersion`; `idxOk` is the success of the final index-record write. -/
structure WOracle where
  appendBytes : Nat → Nat
  addVerOk : Bool
  idxOk : Bool

/-- The append/verify loop of `WriteTile` (lines 1695-1721), a
`do {...} while (tbuff)`: attempt `i` seeks to EOF, appends
`min (appendBytes i) size` bytes, and records the append offset; a
short write makes the result `CE_Failure` (sticky).  `tbuffSet` is
whether the verify-buffer pointer `tbuff` is non-null at the top of
the body: the versioned compare branch frees it at line 1670 without
resetting it, so the loop can be entered with a dangling non-null
pointer.  With `mp_safe` the just-written range is read back and
byte-compared to the payload; a match frees and nulls `tbuff` and the
loop exits, a mismatch retries the append at the new EOF.  Without
`mp_safe` the pointer is never cleared, so a dangling `tbuff` makes
the `while (tbuff)` spin forever, appending at every turn.  Returns
the state, the final append offset and the result, or `Option.none`
when `fuel` runs out with the loop still spinning (the source never
returns in that case). -/
def writeLoop (mp_safe : Bool) (orc : WOracle) (buffMem : List Nat)
    (size : Nat) :
    Nat → Nat → Bool → MRFState → CPLErr → Option (MRFState × Nat × CPLErr)
  | 0, _, _, _, _ => Option.none
  | fuel + 1, i, tbuffSet, s, ret =>
    let offset := s.data.length
    let written := min (orc.appendBytes i) size
    let s1 := { s with data := s.data ++ bufBytes buffMem written }
    let ret1 := if written = size then ret else CPLErr.failure
    if mp_safe then
      if readData s1.data offset size = bufBytes buffMem size then
        Option.some (s1, offset, ret1)
      else
        writeLoop mp_safe orc buffMem size fuel (i + 1) true s1 ret1
    else
      if tbuffSet then
        writeLoop mp_safe orc buffMem size fuel (i + 1) tbuffSet s1 ret1
      else Option.some (s1, offset, ret1)

/-- The `new_tile` flag of the versioning prologue of `WriteTile`
(lines 1661-1682): if the stored size field equals `net64 size`,
re-read `size` bytes of the *data* file at `infooffset` (the source
seeks the data file to the index-record offset, line 1666) and compare
to the payload; for `size == 0` compare the stored offset field with
`net64` of the buffer pointer; a different stored size always makes
the tile new. -/
def wtNewTile (buffAddr : Nat) (buffMem : List Nat)
    (infooffset size : Nat) (s : MRFState) : Bool :=
  let tinfo := s.idx infooffset
  if tinfo.size = net64 size then
    if size ≠ 0 then
      decide (bufBytes buffMem size ≠ readData s.data infooffset size)
    else decide (tinfo.offset ≠ net64 buffAddr)
  else true

/-- The `new_version` flag of the prologue: with `verCount != 0` it is
set exactly when the current record and the latest snapshot's record
differ; with `verCount == 0` it starts set and is cleared only in the
different-size branch when the stored size field is zero. -/
def wtNewVersion (idxSize infooffset size : Nat) (s : MRFState) : Bool :=
  let tinfo := s.idx infooffset
  let nv0 : Bool :=
    if s.verCount ≠ 0 then
      let prevtinfo := s.idx (infooffset + s.verCount * idxSize)
      decide (tinfo.size ≠ prevtinfo.size ∨ tinfo.offset ≠ prevtinfo.offset)
    else true
  if tinfo.size = net64 size then nv0
  else if s.verCount = 0 ∧ tinfo.size = 0 then false else nv0

/-- Whether `WriteTile` reaches the append loop with the verify buffer
pointer `tbuff` non-null but dangling: the versioned compare branch
(lines 1662-1671, taken when the stored size field equals `net64 size`
and `size` is non-zero) allocates `tbuff` and frees it at line 1670
without resetting the pointer. -/
def wtDanglingTbuff (hasVersions : Bool) (infooffset size : Nat)
    (s : MRFState) : Bool :=
  hasVersions && decide ((s.idx infooffset).size = net64 size) &&
    decide (size ≠ 0)

/-- The versioning prologue of `WriteTile` (lines 1639-1690), entered
only when `hasVersions`: read the current record at `infooffset`,
decide `new_tile` and `new_version`, return early with `CE_None`
(encoded `Option.none`) when the tile is not new, and otherwise
snapshot via `AddVersion` when `new_version` is set; the result keeps
the possibly snapshotted state and the record read. -/
def writeTilePrologue (hasVersions : Bool) (idxSize : Nat)
    (addVerOk : Bool) (buffAddr : Nat) (buffMem : List Nat)
    (infooffset size : Nat) (s : MRFState) : Option (MRFState × ILIdx) :=
  if hasVersions then
    if wtNewTile buffAddr buffMem infooffset size s = false then Option.none
    else
      Option.some
        (if wtNewVersion idxSize infooffset size s then
          (addVersion idxSize addVerOk s).1
        else s, s.idx infooffset)
  else Option.some (s, ⟨0, 0⟩)

/-- Embedding of `GDALMRFDataset::WriteTile` (lines 1624-1735).
Here `buffAddr` is the
value of the buffer pointer (`0` is the null pointer) and `buffMem` the
bytes it points to; `infooffset` the index-record byte offset; `ifpOk`
and `dfpOk` whether `IdxFP()` / `DataFP()` produced a handle.  After
the prologue the payload is appended via `writeLoop` (skipped for
`size == 0`), which is entered with the dangling verify-buffer flag
`wtDanglingTbuff` when the versioned compare branch ran (the source
frees `tbuff` there without resetting it, so the loop can spin
forever when `mp_safe` is off), the special marker case replaces the
offset field with
`net64` of the non-null pointer for `size == 0`, and the 16-byte record
`{offset, net64 size}` is written at `infooffset` (a failed record
write is modelled all-or-nothing and makes the result `CE_Failure`).
`Option.none` propagates a verify loop that never terminated. -/
def writeTile (hasVersions mp_safe : Bool) (idxSize : Nat)
    (ifpOk dfpOk : Bool) (orc : WOracle) (fuel : Nat)
    (buffAddr : Nat) (buffMem : List Nat) (infooffset size : Nat)
    (s : MRFState) : Option (MRFState × CPLErr) :=
  if ¬ifpOk ∨ ¬dfpOk then Option.some (s, CPLErr.failure)
  else
    match writeTilePrologue hasVersions idxSize orc.addVerOk buffAddr
        buffMem infooffset size s with
    | Option.none => Option.some (s, CPLErr.none)
    | Option.some (s1, tinfoRead) =>
      let step : Option (MRFState × Nat × CPLErr) :=
        if size ≠ 0 then
          match writeLoop mp_safe orc buffMem size fuel 0
              (wtDanglingTbuff hasVersions infooffset size s) s1
              CPLErr.none with
          | Option.none => Option.none
          | Option.some (s2, off, ret1) => Option.some (s2, net64 off, ret1)
        else Option.some (s1, tinfoRead.offset, CPLErr.none)
      match step with
      | Option.none => Option.none
      | Option.some (s2, offField0, ret1) =>
        let offField := if buffAddr ≠ 0 ∧ size = 0 then net64 buffAddr
          else offField0
        let tinfo : ILIdx := ⟨offField, net64 size⟩
        if orc.idxOk then
          Option.some
            ({ s2 with idx := fun o => if o = infooffset then tinfo else s2.idx o },
             ret1)
        else Option.some (s2, CPLErr.failure)

/-- Embedding of `GDALMRFDataset::SetVersion` (lines 529-545): fail
when versioning
is off or the requested `version` exceeds `verCount`; otherwise add
`idxSize * verCount` to the index offset of every band and of every
overview band (`offsets` lists them all) and clear `hasVersions`.  The
requested `version` is not used in the offset adjustment. -/
def setVersion (hasVersions : Bool) (verCount idxSize : Nat)
    (offsets : List Nat) (version : Nat) : List Nat × Bool × CPLErr :=
  if ¬hasVersions ∨ version > verCount then
    (offsets, hasVersions, CPLErr.failure)
  else
    (offsets.map (fun o => o + idxSize * verCount), false, CPLErr.none)

/-- Dimensions record `ILSize`: x, y, z, c plus `l` (the level for a raster
size, the total page count for a tile grid). -/
structure ILSize where
  x : Nat
  y : Nat
  z : Nat
  c : Nat
  l : Nat
deriving DecidableEq, Repr

/-- Modelled from the spec: the repository's `pcount(n, sz)` helper
(defined outside `src/`) is the ceiling division giving tile-grid
dimensions (`tile grid dimensions are always ceil(size/tilesize)`). -/
def pcount1 (n sz : Nat) : Nat := (n - 1) / sz + 1

/-- Modelled from the spec: tile grid of a raster size under a page
size; the `l` field of the result is the total page count of the
level. -/
def pcountS (size pagesize : ILSize) : ILSize :=
  let px := pcount1 size.x pagesize.x
  let py := pcount1 size.y pagesize.y
  let pz := pcount1 size.z pagesize.z
  let pc := pcount1 size.c pagesize.c
  ⟨px, py, pz, pc, px * py * pz * pc⟩

/-- The slice of `ILImage` the pyramid builder uses: raster size, page
size, derived tile grid and the index-region cursor. -/
structure ILImage where
  size : ILSize
  pagesize : ILSize
  pagecount : ILSize
  idxoffset : Nat
deriving Repr

/-- The raster size of the next pyramid level: ceil-divide x and y by
the scale and bump the level field. -/
def nextSize (scale : Nat) (size : ILSize) : ILSize :=
  { size with
    x := pcount1 size.x scale
    y := pcount1 size.y scale
    l := size.l + 1 }

/-- Embedding of `GDALMRFDataset::AddOverviews(scale)` (lines
1291-1319), the layout
computation only (band registration has no effect on the returned
size).  While the tile grid is larger than 1x1: advance the cursor by
`16 * pagecount.l / size.z * (size.z - zslice)` (C left-associated),
ceil-divide the x and y sizes by `scale`, bump the level, recompute the
tile grid, and advance the cursor by the slice part
`16 * pagecount.l / size.z * zslice`; finally add the last level's
region.  `fuel` bounds the loop; `Option.none` means it did not finish
(the source would keep looping). -/
def addOverviewsF (scale zslice : Nat) : Nat → ILImage → Option Nat
  | 0, img =>
    if img.pagecount.x * img.pagecount.y = 1 then
      Option.some (img.idxoffset +
        16 * img.pagecount.l / img.size.z * (img.size.z - zslice))
    else Option.none
  | fuel + 1, img =>
    if img.pagecount.x * img.pagecount.y = 1 then
      Option.some (img.idxoffset +
        16 * img.pagecount.l / img.size.z * (img.size.z - zslice))
    else
      let off1 := img.idxoffset +
        16 * img.pagecount.l / img.size.z * (img.size.z - zslice)
      let size1 := nextSize scale img.size
      let pc1 := pcountS size1 img.pagesize
      let img1 : ILImage :=
        { size := size1, pagesize := img.pagesize, pagecount := pc1,
          idxoffset := off1 + 16 * pc1.l / size1.z * zslice }
      addOverviewsF scale zslice fuel img1

/-- Total page count summed over the pyramid levels walked by
`addOverviewsF`, starting from the current level (same recursion over
the geometry, without the cursor). -/
def ovTileSum (scale : Nat) : Nat → ILSize → ILSize → ILSize → Nat
  | 0, _, _, pagecount => pagecount.l
  | fuel + 1, size, pagesize, pagecount =>
    if pagecount.x * pagecount.y = 1 then pagecount.l
    else
      let size1 := nextSize scale size
      let pc1 := pcountS size1 pagesize
      pagecount.l + ovTileSum scale fuel size1 pagesize pc1

/-- The bounded wait of `IdxFP` (lines 861-875) for a caching/cloning
dataset whose index file is not yet large enough:
`do { if (CheckFileSize(..)) return fp; MRF_sleep_ms(100); } while (--timeout);`
entered with `timeout = 5`.  `check i` is the outcome of the `i`-th
size probe; the result is (success, probes made, 100 ms sleeps made). -/
def idxWaitLoop (check : Nat → Bool) : Nat → Nat → Bool × Nat × Nat
  | _, 0 => (false, 0, 0)
  | i, t + 1 =>
    if check i then (true, 1, 0)
    else
      let r := idxWaitLoop check (i + 1) t
      (r.1, r.2.1 + 1, r.2.2 + 1)

/-- The wait phase of `IdxFP`: on success the open handle is kept; on
exhaustion a timeout error is raised and NULL is returned
(`Option.none`).  The second component is the total milliseconds
slept. -/
def idxFPWait (check : Nat → Bool) : Option Unit × Nat :=
  let r := idxWaitLoop check 0 5
  (if r.1 then Option.some () else Option.none, 100 * r.2.2)

/-- An index file for the read path: record content by byte offset
(zero beyond what was ever written, the files being zero-grown) and the
current file length in bytes. -/
structure IdxFile where
  recAt : Nat → ILIdx
  len : Nat

/-- State threaded through `ReadTileIdx`: the local (cache) index file
and a counter of read calls issued to the remote (cloned source)
index. -/
structure CloneState where
  localIdx : IdxFile
  remoteReads : Nat

/-- The record adjustment of the clone resolution (lines 1829-1833):
an all-zero record fetched from the remote gets its offset field set to
the non-zero marker `net64 1` before being stored locally. -/
def markChecked (r : ILIdx) : ILIdx :=
  if r.offset = 0 ∧ r.size = 0 then ⟨net64 1, 0⟩ else r

/-- Modelled from the spec: the repository's `IdxOffset(pos, img)`
(defined outside `src/`) maps a tile position to the byte offset of its
index record by the linear addressing formula over the tile grid. -/
def idxOffset (pos : ILSize) (img : ILImage) : Nat :=
  img.idxoffset + 16 * (pos.c + img.pagecount.c *
    (pos.x + img.pagecount.x * (pos.y + img.pagecount.y * pos.z)))

/-- Embedding of `GDALMRFDataset::ReadTileIdx` (lines 1768-1845).
Here `posOff` is
`IdxOffset(pos, img)`; `compNone` whether the image compression is
`IL_NONE`; `ifpPresent` whether `IdxFP()` returned a handle; `src` the
remote index of the cloned source (`Option.none` when it cannot be
opened).  With no index file and no compression a record is
synthesized with no I/O.  Otherwise the 16-byte record at
`bias + posOff` is read (failing on a short read) and converted with
`net64`; a converted all-zero record under non-zero `bias` triggers the
clone resolution: the enclosing 32 KiB block of the bias-less offset is
read from the remote (counted in `remoteReads`), all-zero records in it
are marked via `markChecked`, the block is stored in the local index at
the same offset shifted by `bias`, and the function restarts.  The
inner `Option ILIdx` is the result (`Option.none` is `CE_Failure`);
the outer `Option.none` means `fuel` ran out. -/
def readTileIdx (compNone : Bool) (pageSizeBytes : Nat)
    (ifpPresent : Bool) (src : Option IdxFile) (bias posOff : Nat) :
    Nat → CloneState → Option (CloneState × Option ILIdx)
  | 0, _ => Option.none
  | fuel + 1, st =>
    let offset := bias + posOff
    if ¬ifpPresent ∧ compNone then
      Option.some (st, Option.some ⟨offset * pageSizeBytes, pageSizeBytes⟩)
    else if ¬ifpPresent then
      Option.some (st, Option.none)
    else if offset + 16 > st.localIdx.len then
      Option.some (st, Option.none)
    else
      let raw := st.localIdx.recAt offset
      let t : ILIdx := ⟨net64 raw.offset, net64 raw.size⟩
      if bias = 0 ∨ t.size ≠ 0 ∨ t.offset ≠ 0 then
        Option.some (st, Option.some t)
      else
        let blockStart := posOff / 32768 * 32768
        let cnt := min 32768 (bias - blockStart) / 16
        match src with
        | Option.none => Option.some (st, Option.none)
        | Option.some remote =>
          let st1 := { st with remoteReads := st.remoteReads + 1 }
          if blockStart + 16 * cnt > remote.len then
            Option.some (st1, Option.none)
          else
            let base := bias + blockStart
            let newRec : Nat → ILIdx := fun o =>
              if base ≤ o ∧ o < base + 16 * cnt then
                markChecked (remote.recAt (blockStart + (o - base)))
              else st1.localIdx.recAt o
            let st2 : CloneState :=
              { st1 with localIdx :=
                ⟨newRec, max st1.localIdx.len (base + 16 * cnt)⟩ }
            readTileIdx compNone pageSizeBytes ifpPresent src bias posOff
              fuel st2

/-! ## Theorems for the claims -/

/-- C10: when the index file cannot be opened and compression is
`none`, `ReadTileIdx` does not fail: it synthesizes and returns, with
no index-file I/O and no remote I/O, a record whose size field is the
uncompressed page size in bytes and whose offset field is the
position's linear record offset (bias plus `IdxOffset(pos, img)`)
multiplied by that page size. -/
theorem c10_read_tile_idx_no_index_uncompressed (fuel psb : Nat)
    (src : Option IdxFile) (bias : Nat) (pos : ILSize) (img : ILImage)
    (st : CloneState) :
    readTileIdx true psb false src bias (idxOffset pos img) (fuel + 1) st =
      Option.some (st,
        Option.some ⟨(bias + idxOffset pos img) * psb, psb⟩) := by
  rfl

/-- C9: the wait in the index-open path of `IdxFP` for a
caching/cloning dataset is bounded: at most 5 size probes are made,
each failed probe is followed by one fixed 100 ms sleep, and when all
5 probes fail the open returns a null handle (timeout error) after
500 ms of sleeping instead of blocking; when some probe succeeds a
handle is returned after 100 ms per preceding failed probe. -/
theorem c9_idx_open_wait_bounded (check : Nat → Bool) :
    (idxWaitLoop check 0 5).2.1 ≤ 5 ∧
    (idxWaitLoop check 0 5).2.2 ≤ 5 ∧
    ((∀ i, i < 5 → check i = false) →
      idxFPWait check = (Option.none, 500)) ∧
    ((∃ i, i < 5 ∧ check i = true) → (idxFPWait check).1.isSome) := by
  rcases h0 : check 0 <;> rcases h1 : check 1 <;> rcases h2 : check 2 <;>
    rcases h3 : check 3 <;> rcases h4 : check 4 <;>
  · refine ⟨by simp [idxWaitLoop, h0, h1, h2, h3, h4],
      by simp [idxWaitLoop, h0, h1, h2, h3, h4], ?_, ?_⟩
    · intro hall
      have e0 := hall 0 (by norm_num)
      have e1 := hall 1 (by norm_num)
      have e2 := hall 2 (by norm_num)
      have e3 := hall 3 (by norm_num)
      have e4 := hall 4 (by norm_num)
      simp [idxFPWait, idxWaitLoop, e0, e1, e2, e3, e4]
    · rintro ⟨i, hi, hci⟩
      interval_cases i <;> simp_all [idxFPWait, idxWaitLoop]

/-- C9 witness: when no probe ever succeeds, the open times out with a
null handle after five 100 ms sleeps. -/
theorem c9_idx_open_wait_bounded_witness :
    idxFPWait (fun _ => false) = (Option.none, 500) :=
  (c9_idx_open_wait_bounded (fun _ => false)).2.2.1 (fun _ _ => rfl)

/-- C8 (code bug witness): `SetVersion` accepts the requested version
but ignores it when adjusting offsets.  With `verCount = 2`,
`idxSize = 16` and one band at offset 0, requesting version 1 moves
the band's index offset to `2 * 16 = 32` — the region of version 2 —
whereas version 1's region starts at `1 * 16 = 16`. -/
theorem c8_setVersion_ignores_requested_version :
    setVersion true 2 16 [0] 1 = ([32], false, CPLErr.none) ∧
      (32 : Nat) ≠ 1 * 16 := by
  exact ⟨rfl, by decide⟩

/-- C4 counterexample: `AddVersion` ignores I/O errors.  With a failing
index write it still increments the version counter and returns
`CE_None`, and the new generation's region stays all-zero even though
the current generation's record differs — a partially created version,
not an aborted operation. -/
theorem c4_counterexample :
    (addVersion 16 false
        ⟨fun o => if o = 0 then ⟨net64 5, net64 7⟩ else ⟨0, 0⟩, [], 0⟩).2 =
      CPLErr.none ∧
    (addVersion 16 false
        ⟨fun o => if o = 0 then ⟨net64 5, net64 7⟩ else ⟨0, 0⟩, [], 0⟩).1.verCount
      = 1 ∧
    (addVersion 16 false
        ⟨fun o => if o = 0 then ⟨net64 5, net64 7⟩ else ⟨0, 0⟩, [], 0⟩).1.idx 16
      = ⟨0, 0⟩ ∧
    (⟨0, 0⟩ : ILIdx) ≠ ⟨net64 5, net64 7⟩ := by
  refine ⟨rfl, rfl, rfl, by decide⟩

/-- C4 amended: `AddVersion` reads the whole current generation
(`idxSize` bytes from offset 0), writes it verbatim at offset
`idxSize * (verCount + 1)`, leaves every other record untouched, and
increments the counter by exactly one — but the return values of the
read and the write are ignored: the operation always reports success
and increments the counter even when the copy fails, in which case the
index is not written at all. -/
theorem c4_addVersion_amended (idxSize : Nat) (s : MRFState) :
    (addVersion idxSize true s).1.verCount = s.verCount + 1 ∧
    (addVersion idxSize true s).2 = CPLErr.none ∧
    (∀ o, o < idxSize →
      (addVersion idxSize true s).1.idx (idxSize * (s.verCount + 1) + o) =
        s.idx o) ∧
    (∀ o, o < idxSize * (s.verCount + 1) ∨
        idxSize * (s.verCount + 1) + idxSize ≤ o →
      (addVersion idxSize true s).1.idx o = s.idx o) ∧
    (addVersion idxSize false s).1.verCount = s.verCount + 1 ∧
    (addVersion idxSize false s).2 = CPLErr.none ∧
    (∀ o, (addVersion idxSize false s).1.idx o = s.idx o) := by
  have hidx : ∀ o, (addVersion idxSize true s).1.idx o =
      if idxSize * (s.verCount + 1) ≤ o ∧
          o < idxSize * (s.verCount + 1) + idxSize then
        s.idx (o - idxSize * (s.verCount + 1))
      else s.idx o := fun o => rfl
  refine ⟨rfl, rfl, ?_, ?_, rfl, rfl, fun o => rfl⟩
  · intro o ho
    rw [hidx, if_pos (by omega)]
    congr 1
    omega
  · intro o ho
    rw [hidx, if_neg (by omega)]

/-- C4 amended witness: at `idxSize = 16`, a concrete state with one
record, a successful copy lands the record at offset 16 and bumps the
counter; a failed copy still bumps the counter and reports success. -/
theorem c4_addVersion_amended_witness :
    (addVersion 16 true
        ⟨fun o => if o = 0 then ⟨net64 5, net64 7⟩ else ⟨0, 0⟩, [], 0⟩).1.idx
      (16 * (0 + 1) + 0) = ⟨net64 5, net64 7⟩ ∧
    (addVersion 16 false
        ⟨fun o => if o = 0 then ⟨net64 5, net64 7⟩ else ⟨0, 0⟩, [], 0⟩).1.verCount
      = 1 := by
  refine ⟨?_, (c4_addVersion_amended 16 _).2.2.2.2.1⟩
  have h := (c4_addVersion_amended 16
    ⟨fun o => if o = 0 then ⟨net64 5, net64 7⟩ else ⟨0, 0⟩, [], 0⟩).2.2.1
    0 (by decide)
  simpa using h

theorem bufBytes_length (m : List Nat) (n : Nat) :
    (bufBytes m n).length = n := by
  simp [bufBytes]

theorem readData_append (d l : List Nat) (n : Nat) (hl : l.length = n) :
    readData (d ++ l) d.length n = l := by
  subst hl
  unfold readData
  apply List.ext_getElem
  · simp
  · intro i h1 h2
    simp only [List.getElem_map, List.getElem_range]
    rw [List.getD_eq_getElem _ _ (by simp; omega)]
    simp [List.getElem_append_right]

/-- A data-file append attempt that is accepted in full terminates the
append/verify loop in one iteration — provided the loop can exit at
all: with `mp_safe` the read-back verification succeeds and clears
`tbuff`, and without it the entry pointer must not be the dangling
one.  The payload lands at the old EOF and the result is unchanged. -/
theorem writeLoop_success (mp_safe : Bool) (orc : WOracle) (m : List Nat)
    (size fuel i : Nat) (tb : Bool) (s : MRFState) (ret : CPLErr)
    (h : size ≤ orc.appendBytes i) (hterm : mp_safe = true ∨ tb = false) :
    writeLoop mp_safe orc m size (fuel + 1) i tb s ret =
      Option.some ({ s with data := s.data ++ bufBytes m size },
        s.data.length, ret) := by
  have hmin : min (orc.appendBytes i) size = size := Nat.min_eq_right h
  have hread : readData (s.data ++ bufBytes m size) s.data.length size =
      bufBytes m size :=
    readData_append s.data (bufBytes m size) size (bufBytes_length m size)
  rcases hterm with h1 | h1
  · subst h1
    simp [writeLoop, hmin, hread]
  · subst h1
    cases mp_safe <;> simp [writeLoop, hmin, hread]

/-- With `mp_safe` off and the dangling verify buffer carried into the
loop, the `do {} while (tbuff)` never exits, whatever the oracle: the
source appends at every turn and `WriteTile` never returns. -/
theorem writeLoop_dangling (orc : WOracle) (m : List Nat) (size : Nat) :
    ∀ fuel i s ret,
      writeLoop false orc m size fuel i true s ret = Option.none := by
  intro fuel
  induction fuel with
  | zero => intro i s ret; rfl
  | succ fuel ih =>
    intro i s ret
    simp [writeLoop, ih]

/-- The versioning prologue never touches the data file or the index:
a snapshot only copies records into a fresh region (the data component
is preserved as stated here; see `addVersion`). -/
theorem writeTilePrologue_data (hv : Bool) (is : Nat) (av : Bool)
    (ba : Nat) (m : List Nat) (io sz : Nat) (s s1 : MRFState) (t : ILIdx)
    (h : writeTilePrologue hv is av ba m io sz s = Option.some (s1, t)) :
    s1.data = s.data := by
  unfold writeTilePrologue at h
  split at h
  · split at h
    · exact absurd h (by simp)
    · rw [Option.some.injEq, Prod.mk.injEq] at h
      obtain ⟨h1, -⟩ := h
      subst h1
      split <;> rfl
  · rw [Option.some.injEq, Prod.mk.injEq] at h
    obtain ⟨h1, -⟩ := h
    subst h1
    rfl

/-- The early `return CE_None` of the prologue at `size == 0` happens
only when the stored record is exactly the marker the call would
write: size field zero and offset field `net64` of the pointer. -/
theorem writeTilePrologue_none_size0 (hv : Bool) (is : Nat) (av : Bool)
    (ba : Nat) (m : List Nat) (io : Nat) (s : MRFState)
    (h : writeTilePrologue hv is av ba m io 0 s = Option.none) :
    (s.idx io).size = 0 ∧ (s.idx io).offset = net64 ba := by
  unfold writeTilePrologue at h
  split at h
  · split at h
    next hc =>
      by_cases hsz : (s.idx io).size = 0
      · refine ⟨hsz, ?_⟩
        simp [wtNewTile, net64_zero, hsz] at hc
        exact hc
      · exfalso
        simp [wtNewTile, net64_zero, hsz] at hc
    next hc => exact absurd h (by simp)
  · exact absurd h (by simp)

/-- C5 counterexample: with versioning enabled, a null-buffer, size-0
call (an erase) over a stored record with a non-zero offset field does
not store the all-zero record: the stored offset field survives and
the written record is `{net64 10, 0}`, not `{0, 0}` as the claim's
contrast clause states. -/
theorem c5_counterexample :
    ((writeTile true false 16 true true ⟨fun _ => 100, true, true⟩ 1 0 [] 0 0
        ⟨fun o => if o = 0 then ⟨net64 10, net64 3⟩ else ⟨0, 0⟩,
          [1, 2, 3], 0⟩).map
      (fun r => (r.1.idx 0, r.2))) =
      Option.some (⟨net64 10, 0⟩, CPLErr.none) ∧
    (⟨net64 10, 0⟩ : ILIdx) ≠ ⟨0, 0⟩ := by
  exact ⟨by decide, by decide⟩

/-- C5 amended: a size-0 write with a non-null buffer pointer appends
no payload bytes and leaves at the index offset a record with size
field 0 and the non-zero offset field `net64 buffAddr`; a null-buffer
size-0 call stores the all-zero record when versioning is disabled
(with versioning enabled and a stored record whose offset field is
non-zero, the erase keeps that offset field, see the
counterexample). -/
theorem c5_marker_write_amended (hasVersions mp_safe : Bool)
    (idxSize : Nat) (orc : WOracle) (fuel buffAddr : Nat)
    (buffMem : List Nat) (infooffset : Nat) (s : MRFState)
    (hidxOk : orc.idxOk = true) (haddr : buffAddr ≠ 0)
    (haddr64 : buffAddr < 2 ^ 64) :
    (∃ s1, writeTile hasVersions mp_safe idxSize true true orc fuel
        buffAddr buffMem infooffset 0 s = Option.some (s1, CPLErr.none) ∧
      s1.data = s.data ∧ s1.idx infooffset = ⟨net64 buffAddr, 0⟩ ∧
      s1.idx infooffset ≠ ⟨0, 0⟩) ∧
    (∃ s2, writeTile false mp_safe idxSize true true orc fuel
        0 buffMem infooffset 0 s = Option.some (s2, CPLErr.none) ∧
      s2.data = s.data ∧ s2.idx infooffset = ⟨0, 0⟩) := by
  have hne : net64 buffAddr ≠ 0 := fun hc =>
    haddr ((net64_eq_zero haddr64).mp hc)
  constructor
  · cases hpro : writeTilePrologue hasVersions idxSize orc.addVerOk
      buffAddr buffMem infooffset 0 s with
    | none =>
      refine ⟨s, ?_, rfl, ?_, ?_⟩
      · simp [writeTile, hpro]
      · obtain ⟨h1, h2⟩ := writeTilePrologue_none_size0 _ _ _ _ _ _ _ hpro
        cases hrec : s.idx infooffset with
        | mk o z => simp_all
      · obtain ⟨h1, h2⟩ := writeTilePrologue_none_size0 _ _ _ _ _ _ _ hpro
        intro hc
        rw [hc] at h2
        exact hne h2.symm
    | some p =>
      obtain ⟨s1, t⟩ := p
      refine ⟨{ s1 with idx := fun o =>
          if o = infooffset then ⟨net64 buffAddr, net64 0⟩ else s1.idx o },
        ?_, ?_, ?_, ?_⟩
      · simp [writeTile, hpro, haddr, hidxOk]
      · exact writeTilePrologue_data hasVersions idxSize orc.addVerOk
          buffAddr buffMem infooffset 0 s s1 t hpro
      · simp [net64_zero]
      · simp only [if_pos rfl]
        intro hc
        rw [ILIdx.mk.injEq] at hc
        exact hne hc.1
  · refine ⟨{ s with idx := fun o =>
        if o = infooffset then ⟨0, net64 0⟩ else s.idx o }, ?_, rfl, ?_⟩
    · simp [writeTile, writeTilePrologue, hidxOk]
    · simp [net64_zero]

/-- C5 amended witness: a concrete marker write (pointer value 5) over
an empty index stores the record `{net64 5, 0}` and appends nothing. -/
theorem c5_marker_write_amended_witness :
    (∃ s1, writeTile true false 16 true true ⟨fun _ => 100, true, true⟩ 1
        5 [] 0 0 ⟨fun _ => ⟨0, 0⟩, [], 0⟩ = Option.some (s1, CPLErr.none) ∧
      s1.data = ([] : List Nat) ∧ s1.idx 0 = ⟨net64 5, 0⟩ ∧
      s1.idx 0 ≠ ⟨0, 0⟩) := by
  exact (c5_marker_write_amended true false 16 ⟨fun _ => 100, true, true⟩ 1
    5 [] 0 ⟨fun _ => ⟨0, 0⟩, [], 0⟩ rfl (by decide) (by norm_num)).1

/-- C1 counterexample: without versioning, `WriteTile` never reads or
compares the stored tile.  Starting from empty files, writing the
3-byte payload `[1, 2, 3]` at index offset 0 stores it at data offset
0 with a matching record (second conjunct: the stored tile equals the
payload), yet repeating the identical call appends again: the data
file grows from 3 to 6 bytes, refuting the claimed
length-is-unchanged no-op. -/
theorem c1_counterexample :
    ((writeTile false false 16 true true ⟨fun _ => 100, true, true⟩ 1 7
          [1, 2, 3] 0 3 ⟨fun _ => ⟨0, 0⟩, [], 0⟩).map
        (fun r => (r.1.data, r.1.idx 0, r.2))) =
      Option.some ([1, 2, 3], ⟨net64 0, net64 3⟩, CPLErr.none) ∧
    (((writeTile false false 16 true true ⟨fun _ => 100, true, true⟩ 1 7
          [1, 2, 3] 0 3 ⟨fun _ => ⟨0, 0⟩, [], 0⟩).bind
        (fun r => writeTile false false 16 true true ⟨fun _ => 100, true, true⟩
          1 7 [1, 2, 3] 0 3 r.1)).map
        (fun r => (r.1.data.length, r.2))) =
      Option.some (6, CPLErr.none) ∧
    (6 : Nat) ≠ 3 := by
  exact ⟨by decide, by decide, by decide⟩

/-- C1 amended: only with versioning enabled is a rewrite skipped, and
the comparison re-reads the *data* file at the index-record offset
`infooffset` rather than at the stored tile's own data offset.  When
the stored record's size field matches `net64 size` and those data
bytes equal the payload, the call is an idempotent no-op: it returns
success and leaves the whole state — in particular the data file
length — unchanged. -/
theorem c1_idempotent_skip_amended (mp_safe : Bool) (idxSize : Nat)
    (orc : WOracle) (fuel buffAddr : Nat) (buffMem : List Nat)
    (infooffset size : Nat) (s : MRFState) (hsz : size ≠ 0)
    (hrec : (s.idx infooffset).size = net64 size)
    (hdata : readData s.data infooffset size = bufBytes buffMem size) :
    writeTile true mp_safe idxSize true true orc fuel buffAddr buffMem
      infooffset size s = Option.some (s, CPLErr.none) := by
  have hnt : wtNewTile buffAddr buffMem infooffset size s = false := by
    simp [wtNewTile, hrec, hsz, hdata]
  simp [writeTile, writeTilePrologue, hnt]

/-- C1 amended witness: a concrete skipped rewrite — record size field
`net64 2` at offset 0, data bytes `[9, 8]` there, payload `[9, 8]`:
the call returns success with the state unchanged. -/
theorem c1_idempotent_skip_amended_witness :
    writeTile true false 16 true true ⟨fun _ => 100, true, true⟩ 1 7 [9, 8]
      0 2 ⟨fun o => if o = 0 then ⟨0, net64 2⟩ else ⟨0, 0⟩, [9, 8], 0⟩ =
    Option.some
      (⟨fun o => if o = 0 then ⟨0, net64 2⟩ else ⟨0, 0⟩, [9, 8], 0⟩,
       CPLErr.none) := by
  exact c1_idempotent_skip_amended false 16 ⟨fun _ => 100, true, true⟩ 1 7
    [9, 8] 0 2 _ (by decide) (by decide) (by decide)

/-- C2 counterexample: a failed payload append does not leave the index
record unchanged.  With a stored record `{net64 10, net64 3}` at index
offset 0, a 20-byte data file and an append that writes 0 of 1 bytes,
`WriteTile` returns failure but still overwrites the record with
`{net64 20, net64 1}` — pointing at the failed append's offset. -/
theorem c2_counterexample :
    ((writeTile false false 16 true true ⟨fun _ => 0, true, true⟩ 1 7 [5]
          0 1 ⟨fun o => if o = 0 then ⟨net64 10, net64 3⟩ else ⟨0, 0⟩,
            List.replicate 20 7, 0⟩).map
        (fun r => (r.1.idx 0, r.1.data.length, r.2))) =
      Option.some (⟨net64 20, net64 1⟩, 20, CPLErr.failure) ∧
    (⟨net64 20, net64 1⟩ : ILIdx) ≠ ⟨net64 10, net64 3⟩ := by
  exact ⟨by decide, by decide⟩

/-- C2 amended: a `WriteTile` call that fails before any file is
touched — a missing index or data file handle — returns failure with
the state, in particular the index record, unchanged.  But when the
payload append itself fails (a short write), the source does not
return: it still overwrites the index record at `infooffset` with the
new record `{net64 (old EOF), net64 size}` referencing the failed
append, and returns failure. -/
theorem c2_failure_paths_amended (hasVersions mp_safe : Bool)
    (idxSize : Nat) (ifpOk dfpOk : Bool) (orc : WOracle)
    (fuel buffAddr : Nat) (buffMem : List Nat) (infooffset size : Nat)
    (s : MRFState) :
    (ifpOk = false ∨ dfpOk = false →
      writeTile hasVersions mp_safe idxSize ifpOk dfpOk orc fuel buffAddr
        buffMem infooffset size s = Option.some (s, CPLErr.failure)) ∧
    (orc.appendBytes 0 < size → orc.idxOk = true →
      ((writeTile false false idxSize true true orc (fuel + 1) buffAddr
          buffMem infooffset size s).map
        (fun r => (r.1.idx infooffset, r.2))) =
        Option.some (⟨net64 s.data.length, net64 size⟩, CPLErr.failure)) := by
  constructor
  · rintro (h | h) <;> simp [writeTile, h]
  · intro happ hidx
    have hsz : size ≠ 0 := by omega
    have hmin : min (orc.appendBytes 0) size = orc.appendBytes 0 :=
      Nat.min_eq_left (by omega)
    have hov : ¬(buffAddr ≠ 0 ∧ size = 0) := by
      rintro ⟨-, h0⟩; exact hsz h0
    simp [writeTile, writeTilePrologue, wtDanglingTbuff, hsz, writeLoop,
      hmin, Nat.ne_of_lt happ, hidx, hov]

/-- C2 amended witness: with no data-file handle, a concrete call
fails and returns the state unchanged; a concrete failed append (0 of
1 bytes accepted at EOF 20) still rewrites the record. -/
theorem c2_failure_paths_amended_witness :
    (writeTile false false 16 true false ⟨fun _ => 0, true, true⟩ 1 7 [5]
        0 1 ⟨fun o => if o = 0 then ⟨net64 10, net64 3⟩ else ⟨0, 0⟩,
          List.replicate 20 7, 0⟩ =
      Option.some
        (⟨fun o => if o = 0 then ⟨net64 10, net64 3⟩ else ⟨0, 0⟩,
          List.replicate 20 7, 0⟩, CPLErr.failure)) ∧
    ((writeTile false false 16 true true ⟨fun _ => 0, true, true⟩ 1 7 [5]
        0 1 ⟨fun o => if o = 0 then ⟨net64 10, net64 3⟩ else ⟨0, 0⟩,
          List.replicate 20 7, 0⟩).map
      (fun r => (r.1.idx 0, r.2))) =
      Option.some (⟨net64 20, net64 1⟩, CPLErr.failure) := by
  constructor
  · exact (c2_failure_paths_amended false false 16 true false
      ⟨fun _ => 0, true, true⟩ 1 7 [5] 0 1 _).1 (Or.inr rfl)
  · have h := (c2_failure_paths_amended false false 16 true true
      ⟨fun _ => 0, true, true⟩ 0 7 [5] 0 1
      ⟨fun o => if o = 0 then ⟨net64 10, net64 3⟩ else ⟨0, 0⟩,
        List.replicate 20 7, 0⟩).2 (by decide) rfl
    simpa using h

/-- C3 counterexample: with versioning enabled and `verCount == 0`, a
marker write (non-null pointer, size 0) over an *all-zero* current
record creates a version: the counter goes to 1 even though the
current record is empty, refuting the claim's "but none when the
current record is empty" edge case (the source only cancels the
snapshot in the different-size branch). -/
theorem c3_counterexample :
    ((writeTile true false 16 true true ⟨fun _ => 100, true, true⟩ 1 5 []
          0 0 ⟨fun _ => ⟨0, 0⟩, [], 0⟩).map
        (fun r => (r.1.verCount, r.1.idx 0, r.2))) =
      Option.some (1, ⟨net64 5, 0⟩, CPLErr.none) := by
  decide

/-- C3 amended: with versioning enabled and I/O succeeding, a
`WriteTile` call bumps the version counter by one exactly when both
the `new_tile` and the `new_version` flags are set, and a call with
`new_tile` clear is a skipped no-op (zero versions).  `new_version`
is, for `verCount != 0`, exactly "the current record differs from the
latest snapshot's record in size or offset field"; for `verCount == 0`
it is clear exactly when the stored size field differs from
`net64 size` *and* is zero — so a version is also created when a
marker overwrites an all-zero record, and no version is created when a
non-empty size-0 marker record is overwritten by a different size.
`new_tile` compares against the data-file bytes at `infooffset`, so
"identical payload" skips are guaranteed only when those bytes
coincide with the stored tile.  The write-path statement requires the
call to terminate at all: with `mp_safe` off and the dangling verify
buffer from the equal-size compare branch (`wtDanglingTbuff`), the
source's append loop never exits. -/
theorem c3_version_creation_amended (mp_safe : Bool) (idxSize : Nat)
    (orc : WOracle) (fuel buffAddr : Nat) (buffMem : List Nat)
    (infooffset size : Nat) (s : MRFState)
    (hav : orc.addVerOk = true) (hidx : orc.idxOk = true)
    (happ : ∀ i, size ≤ orc.appendBytes i)
    (hterm : mp_safe = true ∨
      wtDanglingTbuff true infooffset size s = false) :
    ((writeTile true mp_safe idxSize true true orc (fuel + 1) buffAddr
        buffMem infooffset size s).map (fun r => r.1.verCount)) =
      Option.some
        (if wtNewTile buffAddr buffMem infooffset size s = true ∧
            wtNewVersion idxSize infooffset size s = true then
          s.verCount + 1
        else s.verCount) ∧
    (wtNewTile buffAddr buffMem infooffset size s = false →
      writeTile true mp_safe idxSize true true orc (fuel + 1) buffAddr
        buffMem infooffset size s = Option.some (s, CPLErr.none)) ∧
    (s.verCount ≠ 0 →
      (wtNewVersion idxSize infooffset size s = true ↔
        ((s.idx infooffset).size ≠
            (s.idx (infooffset + s.verCount * idxSize)).size ∨
          (s.idx infooffset).offset ≠
            (s.idx (infooffset + s.verCount * idxSize)).offset))) ∧
    (s.verCount = 0 →
      (wtNewVersion idxSize infooffset size s = false ↔
        ((s.idx infooffset).size ≠ net64 size ∧
          (s.idx infooffset).size = 0))) := by
  have hwl : ∀ st : MRFState,
      writeLoop mp_safe orc buffMem size (fuel + 1) 0
          (wtDanglingTbuff true infooffset size s) st CPLErr.none =
        Option.some ({ st with data := st.data ++ bufBytes buffMem size },
          st.data.length, CPLErr.none) :=
    fun st => writeLoop_success mp_safe orc buffMem size fuel 0
      (wtDanglingTbuff true infooffset size s) st CPLErr.none (happ 0)
      hterm
  refine ⟨?_, ?_, ?_, ?_⟩
  · by_cases hnt : wtNewTile buffAddr buffMem infooffset size s = false
    · simp [writeTile, writeTilePrologue, hnt]
    · have hnt' : wtNewTile buffAddr buffMem infooffset size s = true := by
        simpa using hnt
      by_cases hnv : wtNewVersion idxSize infooffset size s = true
      · by_cases hsz : size = 0
        · subst hsz
          simp [writeTile, writeTilePrologue, hnt', hnv, hav, hidx,
            addVersion]
        · simp [writeTile, writeTilePrologue, hnt', hnv, hsz, hav, hidx,
            hwl, addVersion]
      · have hnv' : wtNewVersion idxSize infooffset size s = false := by
          simpa using hnv
        by_cases hsz : size = 0
        · subst hsz
          simp [writeTile, writeTilePrologue, hnt', hnv', hav, hidx,
            addVersion]
        · simp [writeTile, writeTilePrologue, hnt', hnv', hsz, hav, hidx,
            hwl, addVersion]
  · intro hnt
    simp [writeTile, writeTilePrologue, hnt]
  · intro hvc
    by_cases h1 : (s.idx infooffset).size = net64 size <;>
      simp [wtNewVersion, hvc, h1]
  · intro hvc
    by_cases h1 : (s.idx infooffset).size = net64 size <;>
      by_cases h2 : (s.idx infooffset).size = 0 <;>
        simp [wtNewVersion, hvc, h1, h2]

/-- C3 amended witness: the concrete marker-over-empty write has both
flags set and bumps the counter from 0 to 1. -/
theorem c3_version_creation_amended_witness :
    ((writeTile true false 16 true true ⟨fun _ => 100, true, true⟩ 1 5 []
        0 0 ⟨fun _ => ⟨0, 0⟩, [], 0⟩).map (fun r => r.1.verCount)) =
      Option.some 1 := by
  have h := (c3_version_creation_amended false 16 ⟨fun _ => 100, true, true⟩
    0 5 [] 0 0 ⟨fun _ => ⟨0, 0⟩, [], 0⟩ rfl rfl
    (fun i => Nat.zero_le _) (Or.inr (by decide))).1
  rw [if_pos ⟨by decide, by decide⟩] at h
  exact h

theorem pcount1_pos (n sz : Nat) : 0 < pcount1 n sz :=
  Nat.succ_pos _

theorem pcount1_le (n sz : Nat) (hn : 1 ≤ n) : pcount1 n sz ≤ n := by
  unfold pcount1
  have := Nat.div_le_self (n - 1) sz
  omega

theorem pcount1_lt (n scale : Nat) (hn : 2 ≤ n) (hs : 2 ≤ scale) :
    pcount1 n scale < n := by
  unfold pcount1
  have := Nat.div_lt_self (show 0 < n - 1 by omega)
    (show 1 < scale by omega)
  omega

theorem pcount1_two_le (n sz : Nat) (hsz : 0 < sz)
    (h : 2 ≤ pcount1 n sz) : 2 ≤ n := by
  unfold pcount1 at h
  have h1 : 1 ≤ (n - 1) / sz := by omega
  have := (Nat.le_div_iff_mul_le hsz).mp h1
  omega

/-- Termination of the pyramid loop: with positive sizes and a
consistent tile grid, a scale of at least 2 shrinks `size.x + size.y`
at every iteration that continues, so fuel `size.x + size.y`
suffices. -/
theorem addOverviewsF_isSome (scale zslice : Nat) (hscale : 2 ≤ scale) :
    ∀ fuel img, img.pagecount = pcountS img.size img.pagesize →
      0 < img.size.x → 0 < img.size.y →
      0 < img.pagesize.x → 0 < img.pagesize.y →
      img.size.x + img.size.y ≤ fuel →
      (addOverviewsF scale zslice fuel img).isSome := by
  intro fuel
  induction fuel with
  | zero => intro img _ hx hy _ _ hfuel; omega
  | succ fuel ih =>
    intro img hpc hx hy hpx hpy hfuel
    by_cases hdone : img.pagecount.x * img.pagecount.y = 1
    · simp [addOverviewsF, hdone]
    · rw [addOverviewsF, if_neg hdone]
      have hpcx : img.pagecount.x = pcount1 img.size.x img.pagesize.x := by
        rw [hpc]; rfl
      have hpcy : img.pagecount.y = pcount1 img.size.y img.pagesize.y := by
        rw [hpc]; rfl
      have h1x : 0 < img.pagecount.x := hpcx ▸ pcount1_pos _ _
      have h1y : 0 < img.pagecount.y := hpcy ▸ pcount1_pos _ _
      have hbig : 2 ≤ img.pagecount.x ∨ 2 ≤ img.pagecount.y := by
        by_contra hno
        push_neg at hno
        have e1 : img.pagecount.x = 1 := by omega
        have e2 : img.pagecount.y = 1 := by omega
        exact hdone (by rw [e1, e2])
      have hdec : pcount1 img.size.x scale + pcount1 img.size.y scale <
          img.size.x + img.size.y := by
        rcases hbig with hb | hb
        · have hx2 : 2 ≤ img.size.x :=
            pcount1_two_le _ _ hpx (hpcx ▸ hb)
          have := pcount1_lt img.size.x scale hx2 hscale
          have := pcount1_le img.size.y scale hy
          omega
        · have hy2 : 2 ≤ img.size.y :=
            pcount1_two_le _ _ hpy (hpcy ▸ hb)
          have := pcount1_lt img.size.y scale hy2 hscale
          have := pcount1_le img.size.x scale hx
          omega
      exact ih _ rfl (pcount1_pos _ _) (pcount1_pos _ _) hpx hpy
        (show pcount1 img.size.x scale + pcount1 img.size.y scale ≤ fuel by
          omega)

theorem ovTileSum_done (scale fuel : Nat) (size pagesize pagecount : ILSize)
    (hdone : pagecount.x * pagecount.y = 1) :
    ovTileSum scale fuel size pagesize pagecount = pagecount.l := by
  cases fuel with
  | zero => rfl
  | succ n => rw [ovTileSum, if_pos hdone]

theorem ovTileSum_succ (scale fuel : Nat) (size pagesize pagecount : ILSize)
    (hdone : ¬ pagecount.x * pagecount.y = 1) :
    ovTileSum scale (fuel + 1) size pagesize pagecount =
      pagecount.l + ovTileSum scale fuel (nextSize scale size) pagesize
        (pcountS (nextSize scale size) pagesize) := by
  rw [ovTileSum, if_neg hdone]

/-- The cursor arithmetic is exact for the standard configuration
`pagesize.z = 1`, `zslice = 0`: the value returned by the pyramid loop
is the initial cursor plus 16 bytes per tile over all levels
walked. -/
theorem addOverviewsF_value (scale : Nat) :
    ∀ fuel img r, img.pagecount = pcountS img.size img.pagesize →
      img.pagesize.z = 1 → 0 < img.size.z →
      addOverviewsF scale 0 fuel img = Option.some r →
      r = img.idxoffset +
        16 * ovTileSum scale fuel img.size img.pagesize img.pagecount := by
  have key : ∀ img : ILImage,
      img.pagecount = pcountS img.size img.pagesize →
      img.pagesize.z = 1 → 0 < img.size.z →
      16 * img.pagecount.l / img.size.z * (img.size.z - 0) =
        16 * img.pagecount.l := by
    intro img hpc hz1 hz
    have hdvd : img.size.z ∣ img.pagecount.l := by
      rw [hpc]
      show img.size.z ∣ pcount1 img.size.x img.pagesize.x *
        pcount1 img.size.y img.pagesize.y * pcount1 img.size.z img.pagesize.z *
        pcount1 img.size.c img.pagesize.c
      have hzz : pcount1 img.size.z img.pagesize.z = img.size.z := by
        rw [hz1]; unfold pcount1; omega
      rw [hzz]
      exact Dvd.intro_left _ rfl |>.mul_right _
    rw [Nat.sub_zero, Nat.div_mul_cancel (Dvd.dvd.mul_left hdvd 16)]
  intro fuel
  induction fuel with
  | zero =>
    intro img r hpc hz1 hz h
    rw [addOverviewsF] at h
    split at h
    · rw [Option.some.injEq] at h
      rw [← h, key img hpc hz1 hz]
      rfl
    · exact absurd h (by simp)
  | succ fuel ih =>
    intro img r hpc hz1 hz h
    rw [addOverviewsF] at h
    split at h
    next hdone =>
      rw [Option.some.injEq] at h
      rw [← h, key img hpc hz1 hz, ovTileSum_done scale (fuel + 1)
        img.size img.pagesize img.pagecount hdone]
    next hdone =>
      have h' : addOverviewsF scale 0 fuel
          ⟨nextSize scale img.size, img.pagesize,
            pcountS (nextSize scale img.size) img.pagesize,
            img.idxoffset +
              16 * img.pagecount.l / img.size.z * (img.size.z - 0) +
              16 * (pcountS (nextSize scale img.size) img.pagesize).l /
                (nextSize scale img.size).z * 0⟩ = Option.some r := h
      have hrec := ih ⟨nextSize scale img.size, img.pagesize,
          pcountS (nextSize scale img.size) img.pagesize,
          img.idxoffset +
            16 * img.pagecount.l / img.size.z * (img.size.z - 0) +
            16 * (pcountS (nextSize scale img.size) img.pagesize).l /
              (nextSize scale img.size).z * 0⟩ r rfl hz1 hz h'
      rw [hrec, ovTileSum_succ scale fuel img.size img.pagesize
        img.pagecount hdone]
      show img.idxoffset +
          16 * img.pagecount.l / img.size.z * (img.size.z - 0) +
          16 * (pcountS (nextSize scale img.size) img.pagesize).l /
            (nextSize scale img.size).z * 0 +
          16 * ovTileSum scale fuel (nextSize scale img.size) img.pagesize
            (pcountS (nextSize scale img.size) img.pagesize) =
        img.idxoffset + 16 * (img.pagecount.l +
          ovTileSum scale fuel (nextSize scale img.size) img.pagesize
            (pcountS (nextSize scale img.size) img.pagesize))
      rw [key img hpc hz1 hz, Nat.mul_zero, Nat.add_zero, Nat.mul_add,
        Nat.add_assoc]

/-- C7: `AddOverviews(scale)` terminates for every geometry with
positive sizes, positive page sizes and a consistent tile grid when
`scale >= 2`: fuel `size.x + size.y` always suffices (first conjunct);
and in the standard configuration (`pagesize.z = 1`, whole-raster open
`zslice = 0`) it returns the initial index cursor plus 16 bytes per
tile summed over every level walked until the grid reaches 1x1
(second conjunct). -/
theorem c7_addOverviews_terminates_and_size (img : ILImage)
    (scale zslice : Nat)
    (hpc : img.pagecount = pcountS img.size img.pagesize)
    (hx : 0 < img.size.x) (hy : 0 < img.size.y) (hz : 0 < img.size.z)
    (hpx : 0 < img.pagesize.x) (hpy : 0 < img.pagesize.y)
    (hscale : 2 ≤ scale) :
    (addOverviewsF scale zslice (img.size.x + img.size.y) img).isSome ∧
    (img.pagesize.z = 1 → zslice = 0 →
      addOverviewsF scale zslice (img.size.x + img.size.y) img =
        Option.some (img.idxoffset + 16 * ovTileSum scale
          (img.size.x + img.size.y) img.size img.pagesize img.pagecount)) := by
  have hsome := addOverviewsF_isSome scale zslice hscale
    (img.size.x + img.size.y) img hpc hx hy hpx hpy le_rfl
  refine ⟨hsome, ?_⟩
  intro hz1 hzs
  subst hzs
  obtain ⟨r, hr⟩ := Option.isSome_iff_exists.mp hsome
  rw [hr, addOverviewsF_value scale _ img r hpc hz1 hz hr]

/-- C7 witness: a 4x4 raster with 2x2 tiles at scale 2 terminates and
needs `16 * (4 + 1) = 80` index bytes (levels 2x2 and 1x1). -/
theorem c7_addOverviews_terminates_and_size_witness :
    (addOverviewsF 2 0 8
      ⟨⟨4, 4, 1, 1, 0⟩, ⟨2, 2, 1, 1, 0⟩,
        pcountS ⟨4, 4, 1, 1, 0⟩ ⟨2, 2, 1, 1, 0⟩, 0⟩).isSome ∧
    addOverviewsF 2 0 8
      ⟨⟨4, 4, 1, 1, 0⟩, ⟨2, 2, 1, 1, 0⟩,
        pcountS ⟨4, 4, 1, 1, 0⟩ ⟨2, 2, 1, 1, 0⟩, 0⟩ = Option.some 80 := by
  have h := c7_addOverviews_terminates_and_size
    ⟨⟨4, 4, 1, 1, 0⟩, ⟨2, 2, 1, 1, 0⟩,
      pcountS ⟨4, 4, 1, 1, 0⟩ ⟨2, 2, 1, 1, 0⟩, 0⟩ 2 0 rfl
    (by decide) (by decide) (by decide) (by decide) (by decide) (by decide)
  refine ⟨h.1, ?_⟩
  exact (h.2 rfl rfl).trans (by decide)

/-- After `markChecked`, a record converted to native form is never
all-zero: the marker has converted offset 1, and a non-zero remote
record keeps a non-zero field (its 64-bit values convert injectively
at zero). -/
theorem markChecked_conv_ne (r : ILIdx) (h1 : r.offset < 2 ^ 64)
    (h2 : r.size < 2 ^ 64) :
    net64 (markChecked r).size ≠ 0 ∨ net64 (markChecked r).offset ≠ 0 := by
  unfold markChecked
  split
  next hc =>
    right
    show net64 (net64 1) ≠ 0
    decide
  next hc =>
    push_neg at hc
    by_cases ho : r.offset = 0
    · left
      have hs := hc ho
      exact fun hz => hs ((net64_eq_zero h2).mp hz)
    · right
      exact fun hz => ho ((net64_eq_zero h1).mp hz)

/-- A local record that is non-empty after `net64` conversion is
returned directly (lines 1784-1792): one local read, no recursion and
no remote I/O, the state unchanged. -/
theorem readTileIdx_hit (psb : Nat) (src : Option IdxFile)
    (bias posOff fuel : Nat) (st : CloneState)
    (hlen : bias + posOff + 16 ≤ st.localIdx.len)
    (hnz : net64 (st.localIdx.recAt (bias + posOff)).size ≠ 0 ∨
      net64 (st.localIdx.recAt (bias + posOff)).offset ≠ 0) :
    readTileIdx false psb true src bias posOff (fuel + 1) st =
      Option.some (st, Option.some
        ⟨net64 (st.localIdx.recAt (bias + posOff)).offset,
          net64 (st.localIdx.recAt (bias + posOff)).size⟩) := by
  have h3 : ¬ (bias + posOff + 16 > st.localIdx.len) := by omega
  have h4 : bias = 0 ∨ net64 (st.localIdx.recAt (bias + posOff)).size ≠ 0 ∨
      net64 (st.localIdx.recAt (bias + posOff)).offset ≠ 0 := Or.inr hnz
  simp [readTileIdx, h3, h4]

/-- The clone-resolution step (lines 1794-1844): an all-zero local
record under non-zero `bias` issues one remote read for the enclosing
32 KiB block of the bias-less offset, marks the block's all-zero
records, writes the block into the local index at the same offset
shifted by `bias`, and restarts the function on the updated state. -/
theorem readTileIdx_resolve_step (psb : Nat) (remote : IdxFile)
    (bias posOff fuel : Nat) (st : CloneState)
    (hlen : bias + posOff + 16 ≤ st.localIdx.len)
    (hzero : st.localIdx.recAt (bias + posOff) = ⟨0, 0⟩)
    (hbias : bias ≠ 0)
    (hrem : posOff / 32768 * 32768 +
        16 * (min 32768 (bias - posOff / 32768 * 32768) / 16) ≤
      remote.len) :
    readTileIdx false psb true (Option.some remote) bias posOff
        (fuel + 1) st =
      readTileIdx false psb true (Option.some remote) bias posOff fuel
        ⟨⟨fun o =>
            if bias + posOff / 32768 * 32768 ≤ o ∧
                o < bias + posOff / 32768 * 32768 +
                  16 * (min 32768 (bias - posOff / 32768 * 32768) / 16) then
              markChecked (remote.recAt (posOff / 32768 * 32768 +
                (o - (bias + posOff / 32768 * 32768))))
            else st.localIdx.recAt o,
          max st.localIdx.len (bias + posOff / 32768 * 32768 +
            16 * (min 32768 (bias - posOff / 32768 * 32768) / 16))⟩,
        st.remoteReads + 1⟩ := by
  have h3 : ¬ (bias + posOff + 16 > st.localIdx.len) := by omega
  have h4 : ¬ (bias = 0 ∨
      net64 (st.localIdx.recAt (bias + posOff)).size ≠ 0 ∨
      net64 (st.localIdx.recAt (bias + posOff)).offset ≠ 0) := by
    rw [hzero]
    simp [net64_zero, hbias]
  have h5 : ¬ (posOff / 32768 * 32768 +
      16 * (min 32768 (bias - posOff / 32768 * 32768) / 16) >
        remote.len) := by omega
  simp [readTileIdx, h3, h4, h5]

/-- C6: clone resolution.  Take a cloned dataset (`bias` non-zero, a
multiple of the 16-byte record size) and a 16-aligned position offset
`posOff` inside the mirrored region whose local record is all-zero;
let `bs` be the enclosing 32 KiB-aligned block start and `cnt16` the
block's byte size (capped at the region end).  One resolution pass
(`ReadTileIdx` with two units of fuel) (i) succeeds and issues exactly
one remote read, (ii) rewrites every record of the local block to the
remote record — with the offset field replaced by the non-zero marker
`net64 1` when the remote record is all-zero (`markChecked`) — leaving
all other local records untouched, and (iii) a second resolution of
any position in the same block returns directly from the now non-empty
local record, with the state (in particular the remote-read counter)
unchanged: no further remote I/O. -/
theorem c6_clone_resolution (psb fuel fuel2 : Nat) (remote : IdxFile)
    (bias posOff bs cnt16 : Nat) (st : CloneState)
    (hbs : bs = posOff / 32768 * 32768)
    (hc : cnt16 = 16 * (min 32768 (bias - bs) / 16))
    (h16b : 16 ∣ bias) (h16p : 16 ∣ posOff)
    (hin : posOff + 16 ≤ bias)
    (hlen : bias + posOff + 16 ≤ st.localIdx.len)
    (hzero : st.localIdx.recAt (bias + posOff) = ⟨0, 0⟩)
    (hrlen : bias ≤ remote.len)
    (hwf : ∀ o, (remote.recAt o).offset < 2 ^ 64 ∧
      (remote.recAt o).size < 2 ^ 64) :
    ∃ st1 t,
      readTileIdx false psb true (Option.some remote) bias posOff
          (fuel + 1 + 1) st = Option.some (st1, Option.some t) ∧
      st1.remoteReads = st.remoteReads + 1 ∧
      (∀ o, bias + bs ≤ o → o < bias + bs + cnt16 →
        st1.localIdx.recAt o = markChecked (remote.recAt (o - bias))) ∧
      (∀ o, o < bias + bs ∨ bias + bs + cnt16 ≤ o →
        st1.localIdx.recAt o = st.localIdx.recAt o) ∧
      (∀ posOff2, bs ≤ posOff2 → posOff2 + 16 ≤ bs + cnt16 →
        readTileIdx false psb true (Option.some remote) bias posOff2
            (fuel2 + 1) st1 =
          Option.some (st1, Option.some
            ⟨net64 (st1.localIdx.recAt (bias + posOff2)).offset,
              net64 (st1.localIdx.recAt (bias + posOff2)).size⟩)) := by
  subst hbs hc
  have hbias : bias ≠ 0 := by omega
  have hA : posOff / 32768 * 32768 ≤ posOff := Nat.div_mul_le_self _ _
  have hB : posOff - posOff / 32768 * 32768 < 32768 := by omega
  have h16bs : 16 ∣ posOff / 32768 * 32768 :=
    ⟨posOff / 32768 * 2048, by ring⟩
  have h16d : 16 ∣ (bias - posOff / 32768 * 32768) :=
    Nat.dvd_sub' h16b h16bs
  have hcnt : 16 * (min 32768 (bias - posOff / 32768 * 32768) / 16) =
      min 32768 (bias - posOff / 32768 * 32768) := by
    rcases Nat.le_total 32768 (bias - posOff / 32768 * 32768) with hle | hle
    · rw [min_eq_left hle]
    · rw [min_eq_right hle]
      exact Nat.mul_div_cancel' h16d
  have h16diff : 16 ∣ (posOff - posOff / 32768 * 32768) :=
    Nat.dvd_sub' h16p h16bs
  have hF6 : posOff + 16 ≤ posOff / 32768 * 32768 +
      16 * (min 32768 (bias - posOff / 32768 * 32768) / 16) := by
    rw [hcnt]
    rcases Nat.le_total 32768 (bias - posOff / 32768 * 32768) with hle | hle
    · rw [min_eq_left hle]
      omega
    · rw [min_eq_right hle]
      omega
  have hble : posOff / 32768 * 32768 +
      16 * (min 32768 (bias - posOff / 32768 * 32768) / 16) ≤ bias := by
    rw [hcnt]
    omega
  have hrem : posOff / 32768 * 32768 +
      16 * (min 32768 (bias - posOff / 32768 * 32768) / 16) ≤
        remote.len := le_trans hble hrlen
  have hstep := readTileIdx_resolve_step psb remote bias posOff (fuel + 1)
    st hlen hzero hbias hrem
  generalize hST : (⟨⟨fun o =>
      if bias + posOff / 32768 * 32768 ≤ o ∧
          o < bias + posOff / 32768 * 32768 +
            16 * (min 32768 (bias - posOff / 32768 * 32768) / 16) then
        markChecked (remote.recAt (posOff / 32768 * 32768 +
          (o - (bias + posOff / 32768 * 32768))))
      else st.localIdx.recAt o,
    max st.localIdx.len (bias + posOff / 32768 * 32768 +
      16 * (min 32768 (bias - posOff / 32768 * 32768) / 16))⟩,
    st.remoteReads + 1⟩ : CloneState) = st2 at hstep
  have hrecAt : ∀ o, st2.localIdx.recAt o =
      if bias + posOff / 32768 * 32768 ≤ o ∧
          o < bias + posOff / 32768 * 32768 +
            16 * (min 32768 (bias - posOff / 32768 * 32768) / 16) then
        markChecked (remote.recAt (posOff / 32768 * 32768 +
          (o - (bias + posOff / 32768 * 32768))))
      else st.localIdx.recAt o := by
    intro o
    rw [← hST]
  have hlen2 : st2.localIdx.len = max st.localIdx.len
      (bias + posOff / 32768 * 32768 +
        16 * (min 32768 (bias - posOff / 32768 * 32768) / 16)) := by
    rw [← hST]
  have hrr : st2.remoteReads = st.remoteReads + 1 := by
    rw [← hST]
  refine ⟨st2, ⟨net64 (st2.localIdx.recAt (bias + posOff)).offset,
    net64 (st2.localIdx.recAt (bias + posOff)).size⟩, ?_, hrr, ?_, ?_, ?_⟩
  · rw [hstep]
    apply readTileIdx_hit
    · rw [hlen2]
      exact le_trans hlen (Nat.le_max_left _ _)
    · rw [hrecAt, if_pos ⟨by omega, by omega⟩,
        show posOff / 32768 * 32768 +
          (bias + posOff - (bias + posOff / 32768 * 32768)) = posOff by omega]
      exact markChecked_conv_ne _ (hwf posOff).1 (hwf posOff).2
  · intro o h1 h2
    rw [hrecAt, if_pos ⟨h1, h2⟩,
      show posOff / 32768 * 32768 + (o - (bias + posOff / 32768 * 32768)) =
        o - bias by omega]
  · intro o h1
    rw [hrecAt, if_neg (by omega)]
  · intro posOff2 h1 h2
    apply readTileIdx_hit
    · rw [hlen2]
      refine le_trans ?_ (Nat.le_max_right _ _)
      omega
    · rw [hrecAt, if_pos ⟨by omega, by omega⟩,
        show posOff / 32768 * 32768 +
          (bias + posOff2 - (bias + posOff / 32768 * 32768)) = posOff2 by
            omega]
      exact markChecked_conv_ne _ (hwf posOff2).1 (hwf posOff2).2

/-- C6 witness: a concrete clone with `bias = 32` (two records: one at
0 for the remote mirror and one local), local index all-zero of length
64, remote of length 32 holding an all-zero record at 0 and `{0, 5}`
at 16: one pass resolves the block, reads the remote once, and every
record of the local block is the marked remote copy; re-resolution of
any position in the block is local. -/
theorem c6_clone_resolution_witness :
    ∃ st1 t,
      readTileIdx false 100 true
          (Option.some ⟨fun o => if o = 0 then ⟨0, 0⟩ else ⟨0, 5⟩, 32⟩)
          32 0 2 ⟨⟨fun _ => ⟨0, 0⟩, 64⟩, 0⟩ =
        Option.some (st1, Option.some t) ∧
      st1.remoteReads = 0 + 1 ∧
      (∀ o, 32 + 0 ≤ o → o < 32 + 0 + 32 → st1.localIdx.recAt o =
        markChecked (if o - 32 = 0 then ⟨0, 0⟩ else ⟨0, 5⟩)) ∧
      (∀ o, o < 32 + 0 ∨ 32 + 0 + 32 ≤ o →
        st1.localIdx.recAt o = ⟨0, 0⟩) ∧
      (∀ posOff2, 0 ≤ posOff2 → posOff2 + 16 ≤ 0 + 32 →
        readTileIdx false 100 true
            (Option.some ⟨fun o => if o = 0 then ⟨0, 0⟩ else ⟨0, 5⟩, 32⟩)
            32 posOff2 1 st1 =
          Option.some (st1, Option.some
            ⟨net64 (st1.localIdx.recAt (32 + posOff2)).offset,
              net64 (st1.localIdx.recAt (32 + posOff2)).size⟩)) := by
  exact c6_clone_resolution 100 0 0
    ⟨fun o => if o = 0 then ⟨0, 0⟩ else ⟨0, 5⟩, 32⟩ 32 0 0 32
    ⟨⟨fun _ => ⟨0, 0⟩, 64⟩, 0⟩ (by decide) (by decide) (by decide)
    (by decide) (by decide) (by decide) rfl (by decide)
    (fun o => by by_cases h : o = 0 <;> simp [h])

end MRF
